import Mathlib

/-!
Shallow embedding of `tokenizer.py` (a chemical-reaction SMILES tokenizer,
`CustomTokenizer`), together with theorems settling the frozen claims about
its specification.

Modelling conventions:
* Python strings are modelled as `List Char` (string literals appear as
  `"…".data`).  Character ranges in regex character classes compare Unicode
  code points, exactly as Lean's `Char` order does; `\d` is modelled as the
  ASCII digits `0`-`9`.
* The vocabulary dict `token_to_id` is an association list with the usual
  dict assumption of unique keys; `id_to_token = {v: k for k, v in …}` keeps
  the *last* key for a duplicated value, which `lookupToken` reproduces by
  searching the reversed list.
* `re.match(r'^\d+(\.\d+)*$', s)` is modelled faithfully to Python `$`
  semantics: `$` also matches just before one final newline.
* Fallible construction (`__init__` raising `ValueError`) is modelled with
  `Except (List Char)`; all other operations are total, as in the source.
* Recursions whose measure is not structural (the `findall` scan and the
  greedy loop, both of which advance by at least one character per step) are
  written with an explicit fuel argument initialised to the input length;
  theorems below prove that this amount of fuel is exact.
-/

namespace ModelBD

/-- A token: a Python string, modelled as a list of characters. -/
abbrev Tok := List Char

/-- The vocabulary `token_to_id`: an association list token ↦ id. -/
abbrev Vocab := List (Tok × Nat)

/-- `self.token_to_id.get(token, None)` (tokenizer.py line 44):
dict lookup, assuming the dict's unique keys. -/
def lookupId (v : Vocab) (tok : Tok) : Option Nat :=
  (v.find? (fun p => p.1 = tok)).map (fun p => p.2)

/-- `self.id_to_token.get(i, …)` where
`id_to_token = {v: k for k, v in token_to_id.items()}` (line 19): for a
duplicated id the *last* token wins, hence the search over the reversed
list. -/
def lookupToken (v : Vocab) (i : Nat) : Option Tok :=
  (v.reverse.find? (fun p => p.2 = i)).map (fun p => p.1)

/-- `token in self.vocab` where `vocab = set(token_to_id.keys())`
(line 20). -/
def inVocab (v : Vocab) (tok : Tok) : Bool :=
  (lookupId v tok).isSome

/-- The required special tokens (lines 23-27). -/
def pad_token : Tok := "[PAD]".data

def mask_token : Tok := "[MASK]".data

def unk_token : Tok := "[UNK]".data

def eos_token : Tok := "[EOS]".data

def noagent_token : Tok := "[NOAGENT]".data

/-! ## Reaction-class recognizer

`self.reaction_class_pattern = re.compile(r'^\d+(\.\d+)*$')` (line 37),
used as `bool(self.reaction_class_pattern.match(text))` (line 59).
`rcAux s seen` runs the DFA of `\d+(\.\d+)*`; `seen` records whether at
least one digit has been read since the start or the last dot. -/

def rcAux : List Char → Bool → Bool
  | [], seen => seen
  | c :: cs, seen =>
    if c.isDigit then rcAux cs true
    else if c = '.' then seen && rcAux cs false
    else false

/-- Python `$` matches at the end of the string or just before a single
final newline, so `match` ignores one trailing `'\n'`. -/
def stripFinalNewline (s : List Char) : List Char :=
  if s.getLast? = some '\n' then s.dropLast else s

/-- `is_reaction_class` (tokenizer.py lines 57-59), with Python's `$`
semantics. -/
def is_reaction_class (s : List Char) : Bool :=
  rcAux (stripFinalNewline s) false

/-! ## SMILES segmenter

`SMILES_REGEX = r"(>>|\[[^\[\]]{1,10}\]|Br|Cl|Si|Se|Na|Ca|Li|Mg|Zn|Cu|Fe|Mn|Hg|Ag|Au|[B-IK-Zb-ik-z0-9=#$%@+\->\(\)/\\\.])"`
(line 40), used via `findall` (line 63).  `findall` scans left to right: at
each position it tries the alternatives in order; on a match it emits the
matched substring and resumes after it, otherwise it advances one
character. -/

/-- The single-character class `[B-IK-Zb-ik-z0-9=#$%@+\->\(\)/\\\.]`.
Note `\-` is an escaped literal hyphen, so `>` is a member of the class. -/
def isSingleTok (c : Char) : Bool :=
  ('B' ≤ c && c ≤ 'I') || ('K' ≤ c && c ≤ 'Z') ||
  ('b' ≤ c && c ≤ 'i') || ('k' ≤ c && c ≤ 'z') ||
  c.isDigit ||
  (['=', '#', '$', '%', '@', '+', '-', '>', '(', ')', '/', '\\', '.'].contains c)

/-- The fifteen two-letter element symbols `Br|Cl|…|Au`. -/
def isTwoLetterSym (a b : Char) : Bool :=
  decide ((a, b) ∈ ([('B', 'r'), ('C', 'l'), ('S', 'i'), ('S', 'e'), ('N', 'a'),
    ('C', 'a'), ('L', 'i'), ('M', 'g'), ('Z', 'n'), ('C', 'u'), ('F', 'e'),
    ('M', 'n'), ('H', 'g'), ('A', 'g'), ('A', 'u')] : List (Char × Char)))

/-- Alternative 1: the reaction-direction marker `>>`. -/
def matchGtGt (s : List Char) : Option (Tok × List Char) :=
  match s with
  | c1 :: c2 :: rest => if c1 = '>' ∧ c2 = '>' then some (['>', '>'], rest) else none
  | _ => none

/-- Characters allowed inside a bracket group (`[^\[\]]`). -/
def notBracket (c : Char) : Bool :=
  !(c = '[') && !(c = ']')

/-- Alternative 2: a bracket group `\[[^\[\]]{1,10}\]`.  The greedy
counted repetition with backtracking succeeds exactly when the maximal run
of non-bracket characters after `[` has length 1-10 and is followed by
`]`. -/
def bracketMatch (s : List Char) : Option (Tok × List Char) :=
  match s with
  | [] => none
  | c :: rest =>
    if c = '[' then
      let run := rest.takeWhile notBracket
      if 1 ≤ run.length ∧ run.length ≤ 10 then
        match rest.dropWhile notBracket with
        | ']' :: rem => some ('[' :: (run ++ [']']), rem)
        | _ => none
      else none
    else none

/-- Alternative 3: the two-letter element symbols. -/
def matchTwoLetter (s : List Char) : Option (Tok × List Char) :=
  match s with
  | a :: b :: rest => if isTwoLetterSym a b then some ([a, b], rest) else none
  | _ => none

/-- Alternative 4: the single-character class. -/
def matchSingle (s : List Char) : Option (Tok × List Char) :=
  match s with
  | c :: rest => if isSingleTok c then some ([c], rest) else none
  | [] => none

/-- One attempt of the whole alternation at the current position,
alternatives tried in the regex's order. -/
def matchAt (s : List Char) : Option (Tok × List Char) :=
  match matchGtGt s with
  | some r => some r
  | none =>
    match bracketMatch s with
    | some r => some r
    | none =>
      match matchTwoLetter s with
      | some r => some r
      | none => matchSingle s

/-- The `findall` scan, with explicit fuel (each step consumes at least one
character, so fuel `s.length` is exact — proved below). -/
def findallAux : Nat → List Char → List Tok
  | 0, _ => []
  | _ + 1, [] => []
  | fuel + 1, c :: cs =>
    match matchAt (c :: cs) with
    | some (tok, rem) => tok :: findallAux fuel rem
    | none => findallAux fuel cs

/-- `tokenize_smiles` (tokenizer.py lines 61-63):
`self.smiles_pattern.findall(smiles_string)`. -/
def tokenize_smiles (s : List Char) : List Tok :=
  findallAux s.length s

/-! ## Whitespace splitting

`text.strip().split()` (line 70).  `split()` with no argument splits on
runs of whitespace and discards empty pieces, which already ignores leading
and trailing whitespace, so the preceding `strip()` changes nothing.
Whitespace is modelled as the ASCII whitespace characters. -/

def isPySpace (c : Char) : Bool :=
  [' ', '\t', '\n', '\r', '\x0b', '\x0c'].contains c

/-- Accumulator-based splitter; `acc` is the current word, reversed. -/
def pySplitAux : List Char → List Char → List (List Char)
  | [], acc => if acc.isEmpty then [] else [acc.reverse]
  | c :: cs, acc =>
    if isPySpace c then
      if acc.isEmpty then pySplitAux cs [] else acc.reverse :: pySplitAux cs []
    else pySplitAux cs (c :: acc)

/-- `text.strip().split()`. -/
def pySplit (s : List Char) : List (List Char) :=
  pySplitAux s []

/-! ## Construction (`__init__`, lines 5-47)

Vocabulary-file parsing is an external collaborator; the core receives the
finished `token_to_id` mapping.  Construction checks the five required
special tokens via `_require_token`, which raises
`ValueError(f"{token} token is missing in vocabulary!")` on a miss; this is
modelled with `Except (List Char)`. -/

structure CustomTokenizer where
  token_to_id : Vocab
  pad_token_id : Nat
  mask_token_id : Nat
  unk_token_id : Nat
  eos_token_id : Nat
  noagent_token_id : Nat
deriving DecidableEq

/-- `_require_token` (lines 43-47). -/
def requireToken (v : Vocab) (tok : Tok) : Except (List Char) Nat :=
  match lookupId v tok with
  | some i => Except.ok i
  | none => Except.error (tok ++ " token is missing in vocabulary!".data)

/-- The special-token checks of `__init__` (lines 30-34), performed in
source order; the first missing special token aborts construction. -/
def CustomTokenizer.build (v : Vocab) : Except (List Char) CustomTokenizer :=
  match requireToken v pad_token with
  | Except.error e => Except.error e
  | Except.ok pad =>
    match requireToken v mask_token with
    | Except.error e => Except.error e
    | Except.ok mask =>
      match requireToken v unk_token with
      | Except.error e => Except.error e
      | Except.ok unk =>
        match requireToken v eos_token with
        | Except.error e => Except.error e
        | Except.ok eos =>
          match requireToken v noagent_token with
          | Except.error e => Except.error e
          | Except.ok noagent => Except.ok ⟨v, pad, mask, unk, eos, noagent⟩

/-- `vocab_size` (lines 49-52). -/
def CustomTokenizer.vocab_size (t : CustomTokenizer) : Nat :=
  t.token_to_id.length

/-- `get_special_token_id` (lines 54-55). -/
def CustomTokenizer.get_special_token_id (t : CustomTokenizer) (tok : Tok) : Nat :=
  (lookupId t.token_to_id tok).getD t.unk_token_id

/-! ## Encoder (`encode`, lines 65-86) -/

/-- The per-piece classification of the `for piece in pieces` loop
(lines 73-83): reaction class first, then verbatim vocabulary hit, then
SMILES segmentation. -/
def classifyPiece (t : CustomTokenizer) (piece : List Char) : List Tok :=
  if is_reaction_class piece then [piece]
  else if inVocab t.token_to_id piece then [piece]
  else tokenize_smiles piece

/-- `encode` (lines 65-86): split, classify each piece in order, then map
every token through `token_to_id.get(token, unk_token_id)`. -/
def CustomTokenizer.encode (t : CustomTokenizer) (text : List Char) : List Nat :=
  ((pySplit text).flatMap (classifyPiece t)).map
    (fun tok => (lookupId t.token_to_id tok).getD t.unk_token_id)

/-! ## Decoder (`decode`, lines 88-120) -/

/-- `token.startswith('[')`. -/
def startsWithLB (tok : Tok) : Bool :=
  match tok with
  | '[' :: _ => true
  | _ => false

/-- The spacing condition of lines 112-115, in source order: current token
is a reaction class, or previous token is, or current starts with `[`, or
previous starts with `[`. -/
def needSpace (prev cur : Tok) : Bool :=
  is_reaction_class cur || is_reaction_class prev || startsWithLB cur || startsWithLB prev

/-- The joining loop of lines 108-120 from the second token on; `prev` is
the previously emitted token. -/
def joinAux (prev : Tok) : List Tok → List Char
  | [] => []
  | t :: rest => (if needSpace prev t then ' ' :: t else t) ++ joinAux t rest

/-- Smart joining (lines 107-120); the first token gets no separator. -/
def smartJoin : List Tok → List Char
  | [] => []
  | t :: rest => t ++ joinAux t rest

/-- `decode` (lines 88-120): drop pad ids, map the remaining ids through
`id_to_token.get(i, unk_token)`, smart-join.  The two early empty-returns
of the source (lines 94-95 and 104-105) coincide with `smartJoin [] = []`. -/
def CustomTokenizer.decode (t : CustomTokenizer) (ids : List Nat) : List Char :=
  smartJoin ((ids.filter (fun i => !(i = t.pad_token_id))).map
    (fun i => (lookupToken t.token_to_id i).getD unk_token))

/-! ## Legacy greedy tokenizer (`_greedy_tokenize`, lines 122-142) -/

/-- The inner `for j in range(len(text), i, -1)` loop on the current suffix
`s`: try the prefixes of length `k`, `k-1`, …, `1` (i.e. `text[i:j]` for
`j` descending) and return the first (longest) one in the vocabulary. -/
def longestMatchAux (v : Vocab) (s : List Char) : Nat → Option Tok
  | 0 => none
  | k + 1 => if inVocab v (s.take (k + 1)) then some (s.take (k + 1)) else longestMatchAux v s k

/-- The longest vocabulary prefix of `s` (the whole inner loop). -/
def longestMatch (v : Vocab) (s : List Char) : Option Tok :=
  longestMatchAux v s s.length

/-- The outer `while i < len(text)` loop on suffixes, with explicit fuel:
each iteration advances by `len(match)` ≥ 1 character, or by exactly 1 on a
miss, so fuel `text.length` is exact (proved below). -/
def greedyAux (v : Vocab) : Nat → List Char → List Tok
  | 0, _ => []
  | _ + 1, [] => []
  | fuel + 1, c :: cs =>
    match longestMatch v (c :: cs) with
    | some tok => tok :: greedyAux v fuel ((c :: cs).drop tok.length)
    | none => unk_token :: greedyAux v fuel cs

/-- `_greedy_tokenize` (lines 122-142).  It reads only `self.vocab` and the
constant `self.unk_token`, so it is modelled as a function of the
vocabulary. -/
def greedy_tokenize (v : Vocab) (text : List Char) : List Tok :=
  greedyAux v text.length text

/-! ## Spec-side definitions

These follow the spec's wording rather than the source, for the refinement
claims that compare the two. -/

/-- Splits on `.`, keeping empty groups: head group plus the later
groups. -/
def splitDot : List Char → List Char × List (List Char)
  | [] => ([], [])
  | c :: cs =>
    let r := splitDot cs
    if c = '.' then ([], r.1 :: r.2) else (c :: r.1, r.2)

/-- Spec wording of the reaction-class recognizer: the string is one or
more groups of digits separated by single dots, i.e. every `.`-separated
group is nonempty and all digits. -/
def reactionClassSpec (s : List Char) : Bool :=
  ((splitDot s).1 :: (splitDot s).2).all (fun g => !g.isEmpty && g.all Char.isDigit)

/-- Spec wording of the Encoder algorithm (§4.3): (1) split on whitespace;
(2) per piece, in order: reaction class ⇒ one whole token, else verbatim
vocabulary hit ⇒ one whole token, else the SMILES sub-tokens in order;
(3) map every token through the lookup, substituting the unknown id for
misses. -/
def encodeSpec (t : CustomTokenizer) (text : List Char) : List Nat :=
  (((pySplit text).map (fun piece =>
      if is_reaction_class piece then [piece]
      else if (lookupId t.token_to_id piece).isSome then [piece]
      else tokenize_smiles piece)).flatten).map
    (fun tok =>
      match lookupId t.token_to_id tok with
      | some i => i
      | none => t.unk_token_id)

/-- Spec wording of the Decoder's spacing rule (§4.4 step 4): the first
token with no separator; each subsequent token, paired with its
predecessor, preceded by exactly one space iff the condition holds. -/
def renderSpec (toks : List Tok) : List Char :=
  match toks with
  | [] => []
  | t0 :: rest =>
    t0 ++ (rest.zip (t0 :: rest)).flatMap (fun p =>
      (if is_reaction_class p.1 || is_reaction_class p.2 ||
          startsWithLB p.1 || startsWithLB p.2 then [' '] else []) ++ p.1)

/-! ## Concrete vocabularies used by the claims -/

/-- The five required special tokens, in the order `__init__` checks
them. -/
def requiredSpecials : List Tok :=
  [pad_token, mask_token, unk_token, eos_token, noagent_token]

/-- The vocabulary of the round-trip smoke test: the five required special
tokens, `>>`, and every single character of `"CCO>>CCCBr"`. -/
def vocab1 : Vocab :=
  [("[PAD]".data, 0), ("[MASK]".data, 1), ("[UNK]".data, 2), ("[EOS]".data, 3),
   ("[NOAGENT]".data, 4), (">>".data, 5), ("C".data, 6), ("O".data, 7),
   ("B".data, 8), ("r".data, 9), (">".data, 10)]

/-- The tokenizer built from `vocab1`. -/
def t1 : CustomTokenizer := ⟨vocab1, 0, 1, 2, 3, 4⟩

/-- `vocab1` extended with the two tokens the round trip actually needs:
the two-letter symbol `Br` and the reaction class `2.12.13`. -/
def vocab2 : Vocab :=
  vocab1 ++ [("Br".data, 11), ("2.12.13".data, 12)]

/-- The tokenizer built from `vocab2`. -/
def t2 : CustomTokenizer := ⟨vocab2, 0, 1, 2, 3, 4⟩

/-- The greedy-tokenizer example vocabulary `{"ab":0,"a":1,"[UNK]":2}`. -/
def vocabG : Vocab :=
  [("ab".data, 0), ("a".data, 1), ("[UNK]".data, 2)]

/-- A vocabulary missing the required special token `[MASK]`. -/
def vocabNoMask : Vocab :=
  [("[PAD]".data, 0), ("[UNK]".data, 2), ("[EOS]".data, 3), ("[NOAGENT]".data, 4)]

/-! ## Helper lemmas: every successful match consumes at least one
character -/

theorem matchGtGt_rem {s tok rem} (h : matchGtGt s = some (tok, rem)) :
    rem.length < s.length := by
  cases s with
  | nil => simp [matchGtGt] at h
  | cons c1 s' =>
    cases s' with
    | nil => simp [matchGtGt] at h
    | cons c2 rest =>
      simp only [matchGtGt] at h
      split at h
      · cases h
        simp only [List.length_cons]
        omega
      · exact Option.noConfusion h

theorem bracketMatch_rem {s tok rem} (h : bracketMatch s = some (tok, rem)) :
    rem.length < s.length := by
  cases s with
  | nil => simp [bracketMatch] at h
  | cons c rest =>
    simp only [bracketMatch] at h
    split at h
    · split at h
      · split at h
        next heq =>
          cases h
          have h2 : (rest.dropWhile notBracket).length ≤ rest.length :=
            (List.dropWhile_sublist notBracket).length_le
          rw [heq] at h2
          simp at h2 ⊢
          omega
        next => exact Option.noConfusion h
      · exact Option.noConfusion h
    · exact Option.noConfusion h

theorem matchTwoLetter_rem {s tok rem} (h : matchTwoLetter s = some (tok, rem)) :
    rem.length < s.length := by
  cases s with
  | nil => simp [matchTwoLetter] at h
  | cons a s' =>
    cases s' with
    | nil => simp [matchTwoLetter] at h
    | cons b rest =>
      simp only [matchTwoLetter] at h
      split at h
      · cases h
        simp only [List.length_cons]
        omega
      · exact Option.noConfusion h

theorem matchSingle_rem {s tok rem} (h : matchSingle s = some (tok, rem)) :
    rem.length < s.length := by
  cases s with
  | nil => simp [matchSingle] at h
  | cons c rest =>
    simp only [matchSingle] at h
    split at h
    · cases h
      simp only [List.length_cons]
      omega
    · exact Option.noConfusion h

theorem matchAt_rem {s tok rem} (h : matchAt s = some (tok, rem)) :
    rem.length < s.length := by
  unfold matchAt at h
  cases h1 : matchGtGt s with
  | some r =>
    rw [h1] at h
    cases h
    exact matchGtGt_rem h1
  | none =>
    rw [h1] at h
    cases h2 : bracketMatch s with
    | some r =>
      rw [h2] at h
      cases h
      exact bracketMatch_rem h2
    | none =>
      rw [h2] at h
      cases h3 : matchTwoLetter s with
      | some r =>
        rw [h3] at h
        cases h
        exact matchTwoLetter_rem h3
      | none =>
        rw [h3] at h
        exact matchSingle_rem h

/-! ## Fuel bookkeeping: `s.length` fuel is exact for both scans -/

theorem findallAux_nil : ∀ f, findallAux f [] = [] := by
  intro f
  cases f <;> rfl

theorem findallAux_congr : ∀ (f1 f2 : Nat) (s : List Char),
    s.length ≤ f1 → s.length ≤ f2 → findallAux f1 s = findallAux f2 s := by
  intro f1
  induction f1 with
  | zero =>
    intro f2 s h1 _
    have hs : s = [] := List.eq_nil_of_length_eq_zero (Nat.le_zero.mp h1)
    subst hs
    rw [findallAux_nil, findallAux_nil]
  | succ f1' ih =>
    intro f2 s h1 h2
    cases s with
    | nil => rw [findallAux_nil, findallAux_nil]
    | cons c cs =>
      cases f2 with
      | zero => simp at h2
      | succ f2' =>
        simp only [findallAux]
        cases hm : matchAt (c :: cs) with
        | some r =>
          obtain ⟨tok, rem⟩ := r
          have hr : rem.length < (c :: cs).length := matchAt_rem hm
          simp only [List.length_cons] at h1 h2 hr
          dsimp only
          rw [ih f2' rem (by omega) (by omega)]
        | none =>
          simp only [List.length_cons] at h1 h2
          dsimp only
          exact ih f2' cs (by omega) (by omega)

theorem findallAux_eq_tokenize {f : Nat} {s : List Char} (h : s.length ≤ f) :
    findallAux f s = tokenize_smiles s :=
  findallAux_congr f s.length s h (Nat.le_refl _)

theorem findallAux_length_le : ∀ (f : Nat) (s : List Char),
    (findallAux f s).length ≤ s.length := by
  intro f
  induction f with
  | zero => intro s; simp [findallAux]
  | succ f' ih =>
    intro s
    cases s with
    | nil => simp [findallAux]
    | cons c cs =>
      simp only [findallAux]
      cases hm : matchAt (c :: cs) with
      | some r =>
        obtain ⟨tok, rem⟩ := r
        have hr : rem.length < (c :: cs).length := matchAt_rem hm
        have := ih rem
        dsimp only
        simp only [List.length_cons] at hr ⊢
        omega
      | none =>
        have := ih cs
        dsimp only
        simp only [List.length_cons]
        omega

/-! ## Longest-match characterization for the greedy inner loop -/

theorem longestMatchAux_some {v : Vocab} {s : List Char} :
    ∀ (k : Nat) (tok : Tok), longestMatchAux v s k = some tok →
      ∃ j, 1 ≤ j ∧ j ≤ k ∧ tok = s.take j ∧ inVocab v tok = true ∧
        ∀ j', j < j' → j' ≤ k → inVocab v (s.take j') = false := by
  intro k
  induction k with
  | zero => intro tok h; exact Option.noConfusion h
  | succ k' ih =>
    intro tok h
    simp only [longestMatchAux] at h
    split at h
    next hcond =>
      cases h
      exact ⟨k' + 1, by omega, Nat.le_refl _, rfl, hcond, fun j' hj1 hj2 => by omega⟩
    next hcond =>
      obtain ⟨j, hj1, hjk, htok, hv, hlong⟩ := ih tok h
      refine ⟨j, hj1, by omega, htok, hv, fun j' hj1' hj2' => ?_⟩
      rcases Nat.lt_or_ge j' (k' + 1) with hlt | hge
      · exact hlong j' hj1' (by omega)
      · have : j' = k' + 1 := by omega
        subst this
        exact Bool.not_eq_true _ ▸ Bool.eq_false_iff.mpr hcond

theorem longestMatchAux_none {v : Vocab} {s : List Char} :
    ∀ (k : Nat), longestMatchAux v s k = none →
      ∀ j, 1 ≤ j → j ≤ k → inVocab v (s.take j) = false := by
  intro k
  induction k with
  | zero => intro _ j _ h2; omega
  | succ k' ih =>
    intro h j hj1 hj2
    simp only [longestMatchAux] at h
    split at h
    next => exact Option.noConfusion h
    next hcond =>
      rcases Nat.lt_or_ge j (k' + 1) with hlt | hge
      · exact ih h j hj1 (by omega)
      · have : j = k' + 1 := by omega
        subst this
        exact Bool.eq_false_iff.mpr hcond

theorem longestMatch_shape {v : Vocab} {s : List Char} {tok : Tok}
    (h : longestMatch v s = some tok) :
    1 ≤ tok.length ∧ tok.length ≤ s.length := by
  obtain ⟨j, hj1, hjk, htok, -, -⟩ := longestMatchAux_some s.length tok h
  subst htok
  simp only [List.length_take]
  omega

/-! ## Fuel bookkeeping for the greedy outer loop -/

theorem greedyAux_nil : ∀ (v : Vocab) (f : Nat), greedyAux v f [] = [] := by
  intro v f
  cases f <;> rfl

theorem greedyAux_congr : ∀ (v : Vocab) (f1 f2 : Nat) (s : List Char),
    s.length ≤ f1 → s.length ≤ f2 → greedyAux v f1 s = greedyAux v f2 s := by
  intro v f1
  induction f1 with
  | zero =>
    intro f2 s h1 _
    have hs : s = [] := List.eq_nil_of_length_eq_zero (Nat.le_zero.mp h1)
    subst hs
    rw [greedyAux_nil, greedyAux_nil]
  | succ f1' ih =>
    intro f2 s h1 h2
    cases s with
    | nil => rw [greedyAux_nil, greedyAux_nil]
    | cons c cs =>
      cases f2 with
      | zero => simp at h2
      | succ f2' =>
        simp only [greedyAux]
        cases hm : longestMatch v (c :: cs) with
        | some tok =>
          obtain ⟨htok1, htok2⟩ := longestMatch_shape hm
          dsimp only
          have hd : ((c :: cs).drop tok.length).length ≤ cs.length := by
            simp only [List.length_drop, List.length_cons]
            omega
          simp only [List.length_cons] at h1 h2
          rw [ih f2' ((c :: cs).drop tok.length) (by omega) (by omega)]
        | none =>
          dsimp only
          simp only [List.length_cons] at h1 h2
          rw [ih f2' cs (by omega) (by omega)]

theorem greedyAux_eq_greedy {v : Vocab} {f : Nat} {s : List Char} (h : s.length ≤ f) :
    greedyAux v f s = greedy_tokenize v s :=
  greedyAux_congr v f s.length s h (Nat.le_refl _)

theorem greedyAux_length_le : ∀ (v : Vocab) (f : Nat) (s : List Char),
    (greedyAux v f s).length ≤ s.length := by
  intro v f
  induction f with
  | zero => intro s; simp [greedyAux]
  | succ f' ih =>
    intro s
    cases s with
    | nil => simp [greedyAux]
    | cons c cs =>
      simp only [greedyAux]
      cases hm : longestMatch v (c :: cs) with
      | some tok =>
        obtain ⟨htok1, htok2⟩ := longestMatch_shape hm
        have := ih ((c :: cs).drop tok.length)
        dsimp only
        simp only [List.length_drop, List.length_cons] at this ⊢
        omega
      | none =>
        have := ih cs
        dsimp only
        simp only [List.length_cons]
        omega

/-! ## Construction lemmas -/

theorem requireToken_ok_iff {v : Vocab} {tok : Tok} {i : Nat} :
    requireToken v tok = Except.ok i ↔ lookupId v tok = some i := by
  unfold requireToken
  cases h : lookupId v tok <;> simp

theorem requireToken_error {v : Vocab} {tok : Tok} (h : lookupId v tok = none) :
    requireToken v tok = Except.error (tok ++ " token is missing in vocabulary!".data) := by
  unfold requireToken
  rw [h]

theorem build_ok {v : Vocab} {t : CustomTokenizer}
    (h : CustomTokenizer.build v = Except.ok t) :
    t.token_to_id = v ∧
    lookupId v pad_token = some t.pad_token_id ∧
    lookupId v mask_token = some t.mask_token_id ∧
    lookupId v unk_token = some t.unk_token_id ∧
    lookupId v eos_token = some t.eos_token_id ∧
    lookupId v noagent_token = some t.noagent_token_id := by
  unfold CustomTokenizer.build at h
  cases h1 : requireToken v pad_token with
  | error e => rw [h1] at h; exact Except.noConfusion h
  | ok pad =>
    rw [h1] at h
    dsimp only at h
    cases h2 : requireToken v mask_token with
    | error e => rw [h2] at h; exact Except.noConfusion h
    | ok mask =>
      rw [h2] at h
      dsimp only at h
      cases h3 : requireToken v unk_token with
      | error e => rw [h3] at h; exact Except.noConfusion h
      | ok unk =>
        rw [h3] at h
        dsimp only at h
        cases h4 : requireToken v eos_token with
        | error e => rw [h4] at h; exact Except.noConfusion h
        | ok eos =>
          rw [h4] at h
          dsimp only at h
          cases h5 : requireToken v noagent_token with
          | error e => rw [h5] at h; exact Except.noConfusion h
          | ok noagent =>
            rw [h5] at h
            dsimp only at h
            injection h with h'
            subst h'
            exact ⟨rfl, requireToken_ok_iff.mp h1, requireToken_ok_iff.mp h2,
              requireToken_ok_iff.mp h3, requireToken_ok_iff.mp h4,
              requireToken_ok_iff.mp h5⟩

theorem lookupId_mem_values {v : Vocab} {tok : Tok} {j : Nat}
    (h : lookupId v tok = some j) : j ∈ v.map (fun p => p.2) := by
  unfold lookupId at h
  cases hf : v.find? (fun p => decide (p.1 = tok)) with
  | none => rw [hf] at h; exact Option.noConfusion h
  | some pr =>
    rw [hf] at h
    simp only [Option.map_some'] at h
    injection h with h'
    exact List.mem_map.mpr ⟨pr, List.mem_of_find?_eq_some hf, h'⟩

/-! ## Smart-join versus the spec's pairwise rendering -/

theorem joinAux_eq_zip : ∀ (rest : List Tok) (prev : Tok),
    joinAux prev rest = (rest.zip (prev :: rest)).flatMap (fun p =>
      (if is_reaction_class p.1 || is_reaction_class p.2 ||
          startsWithLB p.1 || startsWithLB p.2 then [' '] else []) ++ p.1) := by
  intro rest
  induction rest with
  | nil => intro prev; rfl
  | cons t rest' ih =>
    intro prev
    show (if needSpace prev t then ' ' :: t else t) ++ joinAux t rest' = _
    rw [List.zip_cons_cons, List.flatMap_cons, ih t]
    unfold needSpace
    cases h : is_reaction_class t || is_reaction_class prev ||
        startsWithLB t || startsWithLB prev <;>
      simp [h]

theorem smartJoin_eq_renderSpec : ∀ toks : List Tok, smartJoin toks = renderSpec toks := by
  intro toks
  cases toks with
  | nil => rfl
  | cons t0 rest =>
    show t0 ++ joinAux t0 rest = _
    rw [joinAux_eq_zip]
    rfl

/-! ## The reaction-class DFA versus the spec's group decomposition -/

theorem rcAux_splitDot : ∀ s : List Char,
    (rcAux s false =
      ((splitDot s).1 :: (splitDot s).2).all (fun g => !g.isEmpty && g.all Char.isDigit)) ∧
    (rcAux s true =
      ((splitDot s).1.all Char.isDigit &&
        (splitDot s).2.all (fun g => !g.isEmpty && g.all Char.isDigit))) := by
  intro s
  induction s with
  | nil => exact ⟨rfl, rfl⟩
  | cons c cs ih =>
    obtain ⟨ih1, ih2⟩ := ih
    by_cases hd : c.isDigit
    · have hne : ¬(c = '.') := by
        intro hc
        subst hc
        exact absurd hd (by decide)
      constructor <;>
        simp [rcAux, splitDot, hd, hne, ih2, Bool.and_assoc]
    · by_cases hdot : c = '.'
      · subst hdot
        constructor <;>
          simp [rcAux, splitDot, hd, ih1]
      · constructor <;>
          simp [rcAux, splitDot, hd, hdot]

/-! ## Behaviour of the alternation on a bare `>` -/

theorem isTwoLetterSym_gt (b : Char) : isTwoLetterSym '>' b = false := by
  unfold isTwoLetterSym
  rw [decide_eq_false_iff_not]
  intro hmem
  simp only [List.mem_cons, List.not_mem_nil, or_false, Prod.mk.injEq] at hmem
  rcases hmem with ⟨h, -⟩ | ⟨h, -⟩ | ⟨h, -⟩ | ⟨h, -⟩ | ⟨h, -⟩ | ⟨h, -⟩ | ⟨h, -⟩ |
    ⟨h, -⟩ | ⟨h, -⟩ | ⟨h, -⟩ | ⟨h, -⟩ | ⟨h, -⟩ | ⟨h, -⟩ | ⟨h, -⟩ | ⟨h, -⟩ <;>
    exact absurd h (by decide)

theorem matchGtGt_gt {cs : List Char} (h : cs.head? ≠ some '>') :
    matchGtGt ('>' :: cs) = none := by
  cases cs with
  | nil => rfl
  | cons b rest =>
    have hb : ¬(b = '>') := by
      intro hb
      exact h (by rw [hb]; rfl)
    simp [matchGtGt, hb]

theorem bracketMatch_gt (cs : List Char) : bracketMatch ('>' :: cs) = none := by
  simp [bracketMatch]

theorem matchTwoLetter_gt (cs : List Char) : matchTwoLetter ('>' :: cs) = none := by
  cases cs with
  | nil => rfl
  | cons b rest => simp [matchTwoLetter, isTwoLetterSym_gt b]

theorem matchSingle_gt (cs : List Char) : matchSingle ('>' :: cs) = some (['>'], cs) := by
  simp [matchSingle, show isSingleTok '>' = true by decide]

theorem matchAt_gt {cs : List Char} (h : cs.head? ≠ some '>') :
    matchAt ('>' :: cs) = some (['>'], cs) := by
  unfold matchAt
  rw [matchGtGt_gt h, bracketMatch_gt, matchTwoLetter_gt, matchSingle_gt]

/-! ## Claim C1 -/

/-- C1, counterexample: for the tokenizer built from the vocabulary
containing exactly the five required special tokens, `>>`, and the single
characters of `"CCO>>CCCBr"`, the round trip does *not* reproduce
`"CCO>>CCCBr 2.12.13"`: the segmenter emits the two-letter symbol `Br`,
which is not in the vocabulary, and the reaction class `2.12.13` is not in
the vocabulary either, so both encode to the unknown id and decode to
`[UNK]`. -/
theorem C1_roundtrip_counterexample :
    CustomTokenizer.build vocab1 = Except.ok t1 ∧
    t1.decode (t1.encode ("CCO>>CCCBr 2.12.13".data)) = "CCO>>CCC [UNK] [UNK]".data ∧
    t1.decode (t1.encode ("CCO>>CCCBr 2.12.13".data)) ≠ "CCO>>CCCBr 2.12.13".data :=
  ⟨rfl, by decide, by decide⟩

/-- C1, amended: once the vocabulary also contains the two tokens the
encoding actually produces — the two-letter element symbol `"Br"` and the
reaction class `"2.12.13"` — decode ∘ encode reproduces
`"CCO>>CCCBr 2.12.13"` exactly. -/
theorem C1_roundtrip_amended :
    CustomTokenizer.build vocab2 = Except.ok t2 ∧
    t2.decode (t2.encode ("CCO>>CCCBr 2.12.13".data)) = "CCO>>CCCBr 2.12.13".data :=
  ⟨rfl, by decide⟩

/-! ## Claim C2 -/

/-- C2, counterexample: `tokenize_smiles` *does* emit the token `">"` —
the single-character class of `SMILES_REGEX` contains `>` (the `\-` in
`+\->` is an escaped literal hyphen, not a range), so a bare `>` is
matched, not dropped. -/
theorem C2_bare_gt_counterexample :
    tokenize_smiles (">".data) = [['>']] := by
  decide

/-- C2, amended: the single-character class additionally contains `>`, so
a bare `>` that is not the start of the marker `>>` is emitted as the
single-character token `">"` (and scanning continues after it) rather than
silently dropped. -/
theorem C2_bare_gt_amended :
    isSingleTok '>' = true ∧
    ∀ cs : List Char, cs.head? ≠ some '>' →
      tokenize_smiles ('>' :: cs) = ['>'] :: tokenize_smiles cs := by
  refine ⟨by decide, fun cs h => ?_⟩
  show findallAux (('>' :: cs).length) ('>' :: cs) = _
  rw [List.length_cons]
  simp only [findallAux, matchAt_gt h]
  rfl

/-- C2, witness for the amended theorem at the concrete input `">C"`. -/
theorem C2_bare_gt_amended_witness :
    (("C".data).head? ≠ some '>') ∧
    tokenize_smiles ('>' :: "C".data) = ['>'] :: tokenize_smiles ("C".data) :=
  ⟨by decide, C2_bare_gt_amended.2 ("C".data) (by decide)⟩

/-! ## Claim C3 -/

/-- C3, counterexample: `is_reaction_class` is *not* anchored past a final
newline: Python's `$` matches just before a trailing `'\n'`, so
`is_reaction_class("7\n")` is true although `"7\n"` does not consist of
digit groups only. -/
theorem C3_anchoring_counterexample :
    is_reaction_class ("7\n".data) = true ∧ reactionClassSpec ("7\n".data) = false := by
  decide

/-- C3, amended: for every string `s`, `is_reaction_class(s)` is true iff
`s`, after removing one final newline if present, consists of one or more
groups of digits separated by single dots; all the concrete examples of
the claim hold as stated. -/
theorem C3_reaction_class_amended :
    (∀ s : List Char, is_reaction_class s = reactionClassSpec (stripFinalNewline s)) ∧
    is_reaction_class ("2.12.13".data) = true ∧
    is_reaction_class ("7".data) = true ∧
    is_reaction_class ("".data) = false ∧
    is_reaction_class ("2..3".data) = false ∧
    is_reaction_class ("2.a".data) = false ∧
    is_reaction_class ("CCO".data) = false ∧
    is_reaction_class ("1.2..3".data) = false := by
  refine ⟨fun s => ?_, by decide, by decide, by decide, by decide, by decide,
    by decide, by decide⟩
  unfold is_reaction_class reactionClassSpec
  exact (rcAux_splitDot (stripFinalNewline s)).1

/-! ## Claim C4 -/

theorem encode_eq_spec (t : CustomTokenizer) (text : List Char) :
    t.encode text = encodeSpec t text := by
  have h1 : (fun tok => (lookupId t.token_to_id tok).getD t.unk_token_id)
      = (fun tok => match lookupId t.token_to_id tok with
                    | some i => i
                    | none => t.unk_token_id) := by
    funext tok
    cases lookupId t.token_to_id tok <;> rfl
  have h2 : classifyPiece t = (fun piece =>
      if is_reaction_class piece then [piece]
      else if (lookupId t.token_to_id piece).isSome then [piece]
      else tokenize_smiles piece) := by
    funext piece
    rfl
  unfold CustomTokenizer.encode encodeSpec
  rw [h1, h2]
  rfl

/-- C4: `encode` follows the spec pipeline — whitespace pieces in order,
classified with the priority reaction-class / verbatim-vocabulary-hit /
SMILES sub-tokens, every emitted token mapped with the unknown-id
fallback (this is `encodeSpec`, written from the spec's three steps);
`encode` is a total function by construction (no exceptions), and on the
input `"[PAD]"` it yields exactly `[pad_token_id]`. -/
theorem C4_encode_pipeline :
    ∀ (v : Vocab) (t : CustomTokenizer), CustomTokenizer.build v = Except.ok t →
      (∀ text : List Char, t.encode text = encodeSpec t text) ∧
      t.encode ("[PAD]".data) = [t.pad_token_id] := by
  intro v t hb
  obtain ⟨htv, hpad, -, -, -, -⟩ := build_ok hb
  have hpad' : lookupId v (['[', 'P', 'A', 'D', ']'] : List Char)
      = some t.pad_token_id := hpad
  refine ⟨fun text => encode_eq_spec t text, ?_⟩
  have hsplit : pySplit ("[PAD]".data) = ["[PAD]".data] := by decide
  have hrc : is_reaction_class (['[', 'P', 'A', 'D', ']'] : List Char) = false := by
    decide
  have hvoc : inVocab v (['[', 'P', 'A', 'D', ']'] : List Char) = true := by
    unfold inVocab
    rw [hpad']
    rfl
  unfold CustomTokenizer.encode
  rw [hsplit]
  simp [classifyPiece, hrc, hvoc, htv, hpad']

/-- C4, witness at the concrete vocabulary `vocab1`. -/
theorem C4_encode_pipeline_witness :
    CustomTokenizer.build vocab1 = Except.ok t1 ∧
    t1.encode ("[PAD]".data) = [t1.pad_token_id] :=
  ⟨rfl, (C4_encode_pipeline vocab1 t1 rfl).2⟩

/-! ## Claim C5 -/

/-- C5: after dropping pad ids and mapping the remaining ids to tokens,
`decode` renders the first token with no leading separator, and each
subsequent token preceded by exactly one space iff the current token is a
reaction class, or the previous one is, or the current one starts with
`[`, or the previous one does (`renderSpec` is that rule, written from the
spec over (current, previous) pairs). -/
theorem C5_decode_spacing :
    ∀ (t : CustomTokenizer) (ids : List Nat),
      t.decode ids = renderSpec ((ids.filter (fun i => !(i = t.pad_token_id))).map
        (fun i => (lookupToken t.token_to_id i).getD unk_token)) := by
  intro t ids
  exact smartJoin_eq_renderSpec _

/-! ## Claim C6 -/

/-- C6: whenever one of the five required special tokens is missing from
the supplied mapping, construction fails — with the error message carrying
the name of a missing required special token — before any tokenizer value
is produced.  (In this embedding every other operation is a total
function, so only construction can fail.) -/
theorem C6_missing_special_fails :
    ∀ (v : Vocab) (tok : Tok), tok ∈ requiredSpecials → lookupId v tok = none →
      ∃ t', t' ∈ requiredSpecials ∧ lookupId v t' = none ∧
        CustomTokenizer.build v =
          Except.error (t' ++ " token is missing in vocabulary!".data) := by
  intro v tok hmem hnone
  cases h1 : lookupId v pad_token with
  | none =>
    refine ⟨pad_token, by simp [requiredSpecials], h1, ?_⟩
    unfold CustomTokenizer.build
    rw [requireToken_error h1]
  | some pad =>
    cases h2 : lookupId v mask_token with
    | none =>
      refine ⟨mask_token, by simp [requiredSpecials], h2, ?_⟩
      unfold CustomTokenizer.build
      rw [show requireToken v pad_token = Except.ok pad from requireToken_ok_iff.mpr h1]
      dsimp only
      rw [requireToken_error h2]
    | some mask =>
      cases h3 : lookupId v unk_token with
      | none =>
        refine ⟨unk_token, by simp [requiredSpecials], h3, ?_⟩
        unfold CustomTokenizer.build
        rw [show requireToken v pad_token = Except.ok pad from requireToken_ok_iff.mpr h1]
        dsimp only
        rw [show requireToken v mask_token = Except.ok mask from requireToken_ok_iff.mpr h2]
        dsimp only
        rw [requireToken_error h3]
      | some unk =>
        cases h4 : lookupId v eos_token with
        | none =>
          refine ⟨eos_token, by simp [requiredSpecials], h4, ?_⟩
          unfold CustomTokenizer.build
          rw [show requireToken v pad_token = Except.ok pad from requireToken_ok_iff.mpr h1]
          dsimp only
          rw [show requireToken v mask_token = Except.ok mask from requireToken_ok_iff.mpr h2]
          dsimp only
          rw [show requireToken v unk_token = Except.ok unk from requireToken_ok_iff.mpr h3]
          dsimp only
          rw [requireToken_error h4]
        | some eos =>
          cases h5 : lookupId v noagent_token with
          | none =>
            refine ⟨noagent_token, by simp [requiredSpecials], h5, ?_⟩
            unfold CustomTokenizer.build
            rw [show requireToken v pad_token = Except.ok pad from
              requireToken_ok_iff.mpr h1]
            dsimp only
            rw [show requireToken v mask_token = Except.ok mask from
              requireToken_ok_iff.mpr h2]
            dsimp only
            rw [show requireToken v unk_token = Except.ok unk from
              requireToken_ok_iff.mpr h3]
            dsimp only
            rw [show requireToken v eos_token = Except.ok eos from
              requireToken_ok_iff.mpr h4]
            dsimp only
            rw [requireToken_error h5]
          | some noagent =>
            simp only [requiredSpecials, List.mem_cons, List.not_mem_nil,
              or_false] at hmem
            rcases hmem with rfl | rfl | rfl | rfl | rfl
            · rw [h1] at hnone; exact Option.noConfusion hnone
            · rw [h2] at hnone; exact Option.noConfusion hnone
            · rw [h3] at hnone; exact Option.noConfusion hnone
            · rw [h4] at hnone; exact Option.noConfusion hnone
            · rw [h5] at hnone; exact Option.noConfusion hnone

/-- C6, witness: a vocabulary missing `[MASK]` makes construction fail
with the `[MASK]`-naming error message. -/
theorem C6_missing_special_fails_witness :
    mask_token ∈ requiredSpecials ∧ lookupId vocabNoMask mask_token = none ∧
    ∃ t', t' ∈ requiredSpecials ∧ lookupId vocabNoMask t' = none ∧
      CustomTokenizer.build vocabNoMask =
        Except.error (t' ++ " token is missing in vocabulary!".data) :=
  ⟨by decide, by decide, C6_missing_special_fails vocabNoMask mask_token
    (by decide) (by decide)⟩

/-! ## Claim C7 -/

/-- C7: `decode` drops every pad id before any other processing —
prepending a pad id never changes the result, the empty id sequence
decodes to the empty string, and so does any all-pad sequence. -/
theorem C7_decode_pad_dropping :
    ∀ (t : CustomTokenizer) (x y : Nat),
      t.decode (t.pad_token_id :: x :: [y]) = t.decode (x :: [y]) ∧
      t.decode ([] : List Nat) = [] ∧
      (∀ ids : List Nat, (∀ i ∈ ids, i = t.pad_token_id) → t.decode ids = []) := by
  intro t x y
  refine ⟨?_, rfl, fun ids h => ?_⟩
  · unfold CustomTokenizer.decode
    have hfil : (t.pad_token_id :: x :: [y]).filter (fun i => !(i = t.pad_token_id))
        = (x :: [y]).filter (fun i => !(i = t.pad_token_id)) := by
      simp
    rw [hfil]
  · have hfil : ids.filter (fun i => !(i = t.pad_token_id)) = [] :=
      List.filter_eq_nil_iff.mpr (fun a ha => by simp [h a ha])
    unfold CustomTokenizer.decode
    rw [hfil]
    rfl

/-- C7, witness at `t1` (`pad_token_id = 0`). -/
theorem C7_decode_pad_dropping_witness :
    t1.decode (0 :: 6 :: [7]) = t1.decode (6 :: [7]) ∧
    t1.decode ([] : List Nat) = [] ∧
    t1.decode (0 :: [0]) = [] :=
  ⟨(C7_decode_pad_dropping t1 6 7).1, (C7_decode_pad_dropping t1 6 7).2.1,
    (C7_decode_pad_dropping t1 6 7).2.2 (0 :: [0]) (by decide)⟩

/-! ## Claim C8 -/

/-- C8: the greedy tokenizer's inner loop finds exactly the longest
nonempty vocabulary prefix of the remaining text (or reports none when no
nonempty prefix is in the vocabulary); on a match the scan emits it and
continues after it, on a miss it emits the literal `[UNK]` string and
advances one character; and on vocabulary `{"ab":0,"a":1,"[UNK]":2}` the
input `"abc"` tokenizes to `["ab", "[UNK]"]`. -/
theorem C8_greedy_tokenize :
    (∀ (v : Vocab) (s : List Char) (tok : Tok), longestMatch v s = some tok →
        tok ≠ [] ∧ tok <+: s ∧ inVocab v tok = true ∧
        ∀ p : Tok, p <+: s → inVocab v p = true → p.length ≤ tok.length) ∧
    (∀ (v : Vocab) (s : List Char), longestMatch v s = none →
        ∀ p : Tok, p <+: s → p ≠ [] → inVocab v p = false) ∧
    (∀ (v : Vocab) (c : Char) (cs : List Char) (tok : Tok),
        longestMatch v (c :: cs) = some tok →
        greedy_tokenize v (c :: cs) = tok :: greedy_tokenize v ((c :: cs).drop tok.length)) ∧
    (∀ (v : Vocab) (c : Char) (cs : List Char),
        longestMatch v (c :: cs) = none →
        greedy_tokenize v (c :: cs) = unk_token :: greedy_tokenize v cs) ∧
    greedy_tokenize vocabG ("abc".data) = ["ab".data, unk_token] := by
  refine ⟨?_, ?_, ?_, ?_, by decide⟩
  · intro v s tok h
    obtain ⟨j, hj1, hjk, htok, hv, hlong⟩ := longestMatchAux_some s.length tok h
    have hlen : tok.length = j := by
      rw [htok]
      simp only [List.length_take]
      omega
    refine ⟨?_, ?_, hv, ?_⟩
    · intro hnil
      rw [hnil] at hlen
      simp at hlen
      omega
    · rw [htok]
      exact List.take_prefix j s
    · intro p hp hpv
      by_contra hgt
      have hplen : p.length ≤ s.length := hp.length_le
      have hfalse : inVocab v (s.take p.length) = false :=
        hlong p.length (by omega) hplen
      rw [← List.prefix_iff_eq_take.mp hp] at hfalse
      rw [hpv] at hfalse
      exact Bool.noConfusion hfalse
  · intro v s h p hp hne
    have hp1 : 1 ≤ p.length := List.length_pos.mpr hne
    have hfalse : inVocab v (s.take p.length) = false :=
      longestMatchAux_none s.length h p.length hp1 hp.length_le
    rw [← List.prefix_iff_eq_take.mp hp] at hfalse
    exact hfalse
  · intro v c cs tok h
    obtain ⟨h1, -⟩ := longestMatch_shape h
    have hd : ((c :: cs).drop tok.length).length ≤ cs.length := by
      simp only [List.length_drop, List.length_cons]
      omega
    have hL : greedy_tokenize v (c :: cs)
        = tok :: greedyAux v cs.length ((c :: cs).drop tok.length) := by
      unfold greedy_tokenize
      simp only [List.length_cons, greedyAux]
      rw [h]
    rw [hL, greedyAux_eq_greedy hd]
  · intro v c cs h
    have hL : greedy_tokenize v (c :: cs) = unk_token :: greedyAux v cs.length cs := by
      unfold greedy_tokenize
      simp only [List.length_cons, greedyAux]
      rw [h]
    rw [hL, greedyAux_eq_greedy (Nat.le_refl _)]

/-- C8, witness: the step equation applied at the concrete example —
`"ab"` is the longest vocabulary prefix of `"abc"`. -/
theorem C8_greedy_tokenize_witness :
    longestMatch vocabG ("abc".data) = some ("ab".data) ∧
    greedy_tokenize vocabG ("abc".data)
      = "ab".data :: greedy_tokenize vocabG (("abc".data).drop ("ab".data).length) :=
  ⟨by decide, C8_greedy_tokenize.2.2.1 vocabG 'a' ("bc".data) ("ab".data) (by decide)⟩

/-! ## Claim C9 -/

/-- C9: every operation of the model terminates within the stated bounds:
`s.length` fuel is already enough for the `findall` scan and for the
greedy loop (adding any extra fuel `k` changes nothing, i.e. each loop
iteration advances the scan by at least one character and the loops stop
after at most `len(text)` iterations), and both scans emit at most one
token per input character.  `encode`, `decode`, `is_reaction_class` and
`get_special_token_id` are structurally recursive total functions of this
embedding. -/
theorem C9_termination :
    (∀ (s : List Char) (k : Nat), findallAux (s.length + k) s = tokenize_smiles s) ∧
    (∀ (v : Vocab) (s : List Char) (k : Nat),
        greedyAux v (s.length + k) s = greedy_tokenize v s) ∧
    (∀ s : List Char, (tokenize_smiles s).length ≤ s.length) ∧
    (∀ (v : Vocab) (s : List Char), (greedy_tokenize v s).length ≤ s.length) :=
  ⟨fun _ k => findallAux_eq_tokenize (by omega),
    fun v _ k => greedyAux_eq_greedy (by omega),
    fun s => findallAux_length_le _ _,
    fun v s => greedyAux_length_le _ _ _⟩

/-! ## Claim C10 -/

/-- C10: every id that `encode` emits is a value of the supplied
`token_to_id` mapping — tokens found in the vocabulary map to their own
id, and every miss maps to the unknown id, which is itself the mapping's
value for `[UNK]`. -/
theorem C10_encode_ids_in_vocab :
    ∀ (v : Vocab) (t : CustomTokenizer) (text : List Char) (i : Nat),
      CustomTokenizer.build v = Except.ok t → i ∈ t.encode text →
        i ∈ v.map (fun p => p.2) := by
  intro v t text i hb hi
  obtain ⟨htv, -, -, hunk, -, -⟩ := build_ok hb
  unfold CustomTokenizer.encode at hi
  rw [htv, List.mem_map] at hi
  obtain ⟨tok, -, heq⟩ := hi
  cases hl : lookupId v tok with
  | some j =>
    rw [hl] at heq
    simp only [Option.getD_some] at heq
    subst heq
    exact lookupId_mem_values hl
  | none =>
    rw [hl] at heq
    simp only [Option.getD_none] at heq
    subst heq
    exact lookupId_mem_values hunk

/-- C10, witness: id 6 emitted for `"CCO"` under `vocab1` is a value of
`vocab1`. -/
theorem C10_encode_ids_in_vocab_witness :
    CustomTokenizer.build vocab1 = Except.ok t1 ∧
    (6 : Nat) ∈ t1.encode ("CCO".data) ∧
    (6 : Nat) ∈ vocab1.map (fun p => p.2) :=
  ⟨rfl, by decide, C10_encode_ids_in_vocab vocab1 t1 ("CCO".data) 6 rfl (by decide)⟩

end ModelBD
